import Mathlib

/-!
Verification development for a durable message queue built on a relational
database (the `fx-mq-building-blocks` repository).

The database state is embedded shallowly: each table is a list of rows, each
SQL operation from `src/queries/` becomes a Lean function on the state.
Instants (`chrono::DateTime<Utc>`) are modelled as `Int`, durations
(`std::time::Duration`, unsigned) as `Nat`, UUIDs as `Nat`, JSON payloads as
`String`.  The repository's migration files (table constraints: primary keys
and foreign keys) are not part of the sources; where a constraint decides
behaviour it is modelled from the spec and from the behaviour the repository's
own tests exercise, and marked as such in the doc comment.
-/

namespace FxMq

/-! ## Backoff strategies (`src/backoff/`) -/

/-- `ConstantBackoff` from `src/backoff/constant.rs`: one immutable
`base_delay` parameter. -/
structure ConstantBackoff where
  base_delay : Nat
deriving DecidableEq, Repr

/-- `ConstantBackoff::try_at`: ignores the attempt count, returns
`attempted_at + base_delay`. -/
def ConstantBackoff.try_at (b : ConstantBackoff) (_attempted : Int)
    (attempted_at : Int) : Int :=
  attempted_at + b.base_delay

/-- `LinearBackoff` from `src/backoff/linear.rs`. -/
structure LinearBackoff where
  base_delay : Nat
deriving DecidableEq, Repr

/-- `LinearBackoff::try_at`: the attempt count is a `u32` in the source,
hence a `Nat` here; returns `attempted_at + base_delay * attempted`. -/
def LinearBackoff.try_at (b : LinearBackoff) (attempted : Nat)
    (attempted_at : Int) : Int :=
  attempted_at + b.base_delay * attempted

/-- `ExponentialBackoff` from `src/backoff/exponential.rs`. -/
structure ExponentialBackoff where
  base : Nat
  base_delay : Nat
deriving DecidableEq, Repr

/-- `ExponentialBackoff::try_at`: `attempted` is an `i32`; for
`attempted <= 0` the instant is returned unchanged, otherwise the source
casts `attempted` to `u32` and returns
`attempted_at + base_delay * base.pow(attempted - 1)`. -/
def ExponentialBackoff.try_at (b : ExponentialBackoff) (attempted : Int)
    (attempted_at : Int) : Int :=
  if attempted ≤ 0 then
    attempted_at
  else
    attempted_at + b.base_delay * b.base ^ (attempted.toNat - 1)

/-! ## Poll-control stream (`src/listener/poll_control.rs`)

The stream state is the mutable fields of `PollControlStream`.  The attached
PostgreSQL notification stream is opaque; its presence is part of the state
and the outcome of polling it once is an input to `poll_next`. -/

/-- Outcome of polling the upstream notification stream once
(`pg_stream.as_mut().poll_next(cx)` in the source). -/
inductive PgUpstreamPoll where
  /-- `Poll::Ready(Some(Ok(_)))` — a notification arrived. -/
  | readyOk
  /-- `Poll::Ready(Some(Err(_)))` — the upstream produced an error. -/
  | readyErr
  /-- `Poll::Ready(None)` — the upstream ended. -/
  | readyNone
  /-- `Poll::Pending`. -/
  | pending
deriving DecidableEq, Repr

/-- Result of one `poll_next` call: `Poll<Option<Result<bool, Error>>>`
restricted to the shapes the source can produce. -/
inductive PollNextResult where
  /-- `Poll::Ready(Some(Ok(v)))`. -/
  | ready (v : Bool)
  /-- `Poll::Ready(Some(Err(_)))` — a forwarded upstream error. -/
  | readyErr
  /-- `Poll::Pending`. -/
  | pending
deriving DecidableEq, Repr

/-- Mutable state of `PollControlStream`.  `pg_stream` records only whether
an upstream notification stream is attached. -/
structure PollControlStream where
  pg_stream : Option Unit
  failed_attempts : Int
  reference_time : Int
  backoff : ExponentialBackoff
  poll : Bool
deriving DecidableEq, Repr

/-- `PollControlStream::new`: no upstream, zero failed attempts,
`reference_time = now`, and the `poll` flag set so the first poll emits
immediately. -/
def PollControlStream.new (backoff : ExponentialBackoff) (now : Int) :
    PollControlStream :=
  { pg_stream := none
    failed_attempts := 0
    reference_time := now
    backoff := backoff
    poll := true }

/-- `PollControlStream::increment_failed_attempts`. -/
def PollControlStream.increment_failed_attempts (s : PollControlStream) :
    PollControlStream :=
  { s with failed_attempts := s.failed_attempts + 1 }

/-- `PollControlStream::reset_failed_attempts`. -/
def PollControlStream.reset_failed_attempts (s : PollControlStream) :
    PollControlStream :=
  { s with failed_attempts := 0 }

/-- `PollControlStream::set_poll`. -/
def PollControlStream.set_poll (s : PollControlStream) : PollControlStream :=
  { s with poll := true }

/-- `PollControlStream::handle_backoff_timing`: if `now` has reached
`backoff.try_at(attempts, reference_time)`, set `reference_time = now` and
emit `Ok(true)`; otherwise schedule a wakeup and stay pending. -/
def PollControlStream.handle_backoff_timing (s : PollControlStream)
    (now : Int) (attempts : Int) : PollNextResult × PollControlStream :=
  if now ≥ s.backoff.try_at attempts s.reference_time then
    (.ready true, { s with reference_time := now })
  else
    (.pending, s)

/-- `<PollControlStream as Stream>::poll_next`: failed-attempts backoff takes
precedence, then the manual `poll` flag, then the upstream notification
stream (when attached), then the regular interval fallback with attempt 1. -/
def PollControlStream.poll_next (s : PollControlStream) (now : Int)
    (upstream : PgUpstreamPoll) : PollNextResult × PollControlStream :=
  if s.failed_attempts > 0 then
    s.handle_backoff_timing now s.failed_attempts
  else if s.poll then
    (.ready true, { s with poll := false, reference_time := now })
  else
    match s.pg_stream with
    | some _ =>
      match upstream with
      | .readyOk => (.ready true, { s with reference_time := now })
      | .readyErr => (.readyErr, s)
      | .readyNone => s.handle_backoff_timing now 1
      | .pending => s.handle_backoff_timing now 1
    | none => s.handle_backoff_timing now 1

/-! ## Data model (`src/models.rs` and the tables of the schema) -/

/-- A row of `messages_unattempted` / `messages_attempted`:
`(id, name, hash, payload, published_at)`. -/
structure MsgRow where
  id : Nat
  name : String
  hash : Int
  payload : String
  published_at : Int
deriving DecidableEq, Repr

/-- `RawMessage` from `src/models.rs`: what the query layer returns. -/
structure RawMessage where
  id : Nat
  name : String
  hash : Int
  payload : String
  attempted : Int
deriving DecidableEq, Repr

/-- A row of `leases`. -/
structure Lease where
  message_id : Nat
  acquired_at : Int
  acquired_by : Nat
  expires_at : Int
deriving DecidableEq, Repr

/-- A row of `attempts_failed`. -/
structure FailedRow where
  id : Nat
  message_id : Nat
  failed_at : Int
  attempted : Int
  retry_earliest_at : Int
deriving DecidableEq, Repr

/-- A row of `attempts_succeeded`. -/
structure SucceededRow where
  message_id : Nat
  succeeded_at : Int
deriving DecidableEq, Repr

/-- A row of `attempts_dead`. -/
structure DeadRow where
  message_id : Nat
  dead_at : Int
deriving DecidableEq, Repr

/-- A row of `errors`. -/
structure ErrorRow where
  id : Nat
  message_id : Nat
  reported_at : Int
  error : String
deriving DecidableEq, Repr

/-- The database state: one list of rows per table of the schema. -/
structure Db where
  messages_unattempted : List MsgRow
  messages_attempted : List MsgRow
  leases : List Lease
  attempts_failed : List FailedRow
  attempts_succeeded : List SucceededRow
  attempts_dead : List DeadRow
  errors : List ErrorRow
deriving DecidableEq, Repr

/-- The empty database (all tables empty), the state after migration. -/
def Db.empty : Db := ⟨[], [], [], [], [], [], []⟩

/-- Typed database errors raised by the query layer.  The distinction
mirrors the two constraint classes the operations can trip. -/
inductive DbError where
  | uniqueViolation
  | fkViolation
deriving DecidableEq, Repr

/-- `ORDER BY ... LIMIT 1` over a list: first element minimal under the
boolean order `le` (on ties the earlier element wins, a deterministic
refinement of the SQL's unspecified tie-break). -/
def minByLe (le : α → α → Bool) : List α → Option α
  | [] => none
  | x :: xs =>
    match minByLe le xs with
    | none => some x
    | some y => if le x y then some x else some y

/-- `ORDER BY published_at ASC, id ASC` on message rows. -/
def msgRowLe (a b : MsgRow) : Bool :=
  a.published_at < b.published_at ||
    (a.published_at = b.published_at && a.id ≤ b.id)

/-- `ORDER BY failed_at ASC, message_id ASC` on `attempts_failed` rows. -/
def failedRowLe (a b : FailedRow) : Bool :=
  a.failed_at < b.failed_at ||
    (a.failed_at = b.failed_at && a.message_id ≤ b.message_id)

/-- `ORDER BY published_at` (no tie-break column) on message rows. -/
def publishedLe (a b : MsgRow) : Bool :=
  a.published_at ≤ b.published_at

/-! ## Query layer (`src/queries/`)

Each operation returns its result paired with the successor state; on an
error the state is returned unchanged (the single SQL statement aborts as a
whole). -/

/-- `publish_message` (`src/queries/publish_message.rs`): inserts a row into
`messages_unattempted` with `published_at = now` and returns the stored row
with `attempted` synthesized as 0.  The id-collision error comes from the
primary key on `messages_unattempted.id`, modelled from the spec ("Error if
id collides"; the migration files are not part of the sources). -/
def publish_message (s : Db) (m : RawMessage) (now : Int) :
    Except DbError RawMessage × Db :=
  if s.messages_unattempted.any (fun r => r.id = m.id) then
    (.error .uniqueViolation, s)
  else
    (.ok { m with attempted := 0 },
      { s with messages_unattempted :=
          s.messages_unattempted ++ [⟨m.id, m.name, m.hash, m.payload, now⟩] })

/-- `request_lease` (`src/queries/request_lease.rs`): inserts a lease row
`(message_id, now, host_id, now + hold_for)` and returns its `expires_at`
iff no lease row anywhere in the table has `acquired_by ≠ host_id` and
`expires_at > now`.  Note that, exactly as in the source SQL, the
`NOT EXISTS` subquery carries no `message_id` filter.  The repository's own
test `it_acquires_a_lease_when_none_is_held` acquires a lease for a message
id that exists in no other table, so no foreign key on `leases.message_id`
is modelled. -/
def request_lease (s : Db) (message_id : Nat) (now : Int) (host_id : Nat)
    (hold_for : Nat) : Option Int × Db :=
  if s.leases.any (fun l => l.acquired_by ≠ host_id && l.expires_at > now) then
    (none, s)
  else
    (some (now + hold_for),
      { s with leases :=
          s.leases ++ [⟨message_id, now, host_id, now + hold_for⟩] })

/-- `get_next_unattempted` (`src/queries/get_next_unattempted.rs`): deletes
the rows of `messages_unattempted` whose id is the one minimal under
`published_at ASC, id ASC`, inserts a lease `(id, now, host_id, now +
hold_for)` for each deleted row, copies each deleted row into
`messages_attempted`, and returns the attempted row with `attempted = 0`.
The error branch is the primary key on `messages_attempted.id`, modelled
from the spec ("Exactly one row per attempted message"; migrations are not
in the sources): the copy fails if the id is already attempted or was not
unique among the deleted rows. -/
def get_next_unattempted (s : Db) (now : Int) (host_id : Nat)
    (hold_for : Nat) : Except DbError (Option RawMessage) × Db :=
  match minByLe msgRowLe s.messages_unattempted with
  | none => (.ok none, s)
  | some r =>
    if (s.messages_unattempted.filter fun x => x.id = r.id).length ≠ 1
        ∨ s.messages_attempted.any (fun a => a.id = r.id) then
      (.error .uniqueViolation, s)
    else
      (.ok (some ⟨r.id, r.name, r.hash, r.payload, 0⟩),
        { s with
            messages_unattempted :=
              s.messages_unattempted.filter fun x => x.id ≠ r.id
            leases :=
              s.leases ++
                (s.messages_unattempted.filter fun x => x.id = r.id).map
                  fun x => ⟨x.id, now, host_id, now + hold_for⟩
            messages_attempted :=
              s.messages_attempted ++
                (s.messages_unattempted.filter fun x => x.id = r.id) })

/-- The `WHERE` clause of `next_retryable` in
`src/queries/get_next_retryable.rs`: `retry_earliest_at <= now`, no lease on
this message with `expires_at > now`, and `failed_at` equal to the maximum
`failed_at` among the message's `attempts_failed` rows. -/
def retry_candidate (s : Db) (now : Int) (f : FailedRow) : Bool :=
  f.retry_earliest_at ≤ now &&
    !(s.leases.any fun l => l.message_id = f.message_id && l.expires_at > now) &&
    ((s.attempts_failed.filter fun g => g.message_id = f.message_id).all
      fun g => g.failed_at ≤ f.failed_at)

/-- `get_next_retryable` (`src/queries/get_next_retryable.rs`): picks the
candidate `attempts_failed` row minimal under `failed_at ASC, message_id
ASC`, inserts a fresh lease for its message, and returns the
`messages_attempted` row with the candidate's `attempted` counter.  As in
the SQL, the lease insert (a data-modifying CTE) happens even if the final
`SELECT` against `messages_attempted` finds no row. -/
def get_next_retryable (s : Db) (now : Int) (host_id : Nat) (hold_for : Nat) :
    Except DbError (Option RawMessage) × Db :=
  match minByLe failedRowLe (s.attempts_failed.filter (retry_candidate s now)) with
  | none => (.ok none, s)
  | some f =>
    let s' : Db :=
      { s with leases :=
          s.leases ++ [⟨f.message_id, now, host_id, now + hold_for⟩] }
    match s.messages_attempted.find? (fun a => a.id = f.message_id) with
    | some a => (.ok (some ⟨a.id, a.name, a.hash, a.payload, f.attempted⟩), s')
    | none => (.ok none, s')

/-- The `WHERE` clause of `candidate` in `src/queries/get_next_missing.rs`:
an attempted row joined to a lease with `expires_at < now`, with no
`attempts_succeeded` and no `attempts_dead` row. -/
def missing_candidate (s : Db) (now : Int) (ma : MsgRow) : Bool :=
  (s.leases.any fun l => l.message_id = ma.id && l.expires_at < now) &&
    !(s.attempts_succeeded.any fun x => x.message_id = ma.id) &&
    !(s.attempts_dead.any fun x => x.message_id = ma.id)

/-- `get_next_missing` (`src/queries/get_next_missing.rs`): picks the
candidate attempted row minimal under `published_at ASC`, updates every
lease row of that message in place to `(now, host_id, now + hold_for)`, and
returns the message with `attempted` reported as 0. -/
def get_next_missing (s : Db) (now : Int) (host_id : Nat) (hold_for : Nat) :
    Option RawMessage × Db :=
  match minByLe publishedLe (s.messages_attempted.filter (missing_candidate s now)) with
  | none => (none, s)
  | some c =>
    (some ⟨c.id, c.name, c.hash, c.payload, 0⟩,
      { s with leases :=
          s.leases.map fun l =>
            if l.message_id = c.id then
              { l with acquired_at := now, acquired_by := host_id,
                       expires_at := now + hold_for }
            else l })

/-- `report_success` (`src/queries/report_success.rs`): deletes the
message's lease rows and `attempts_failed` rows and inserts an
`attempts_succeeded` row.  The error branch is the foreign key from
`attempts_succeeded.message_id` to `messages_attempted.id`, modelled from
the spec and from the repository's test
`it_errors_if_the_message_was_not_attempted`. -/
def report_success (s : Db) (message_id : Nat) (now : Int) :
    Except DbError Unit × Db :=
  if s.messages_attempted.any (fun a => a.id = message_id) then
    (.ok (),
      { s with
          leases := s.leases.filter (fun l => l.message_id ≠ message_id)
          attempts_failed :=
            s.attempts_failed.filter (fun f => f.message_id ≠ message_id)
          attempts_succeeded :=
            s.attempts_succeeded ++ [⟨message_id, now⟩] })
  else
    (.error .fkViolation, s)

/-- `report_retryable` (`src/queries/report_retryable.rs`): deletes the
message's lease rows, appends an `attempts_failed` row with the
caller-incremented counter, and appends an `errors` row.  `failed_id` and
`error_id` are the fresh UUIDv7 values the source generates.  The error
branch is the foreign key to `messages_attempted`, modelled from the spec
and the repository's test `it_errors_if_the_message_was_not_attempted`. -/
def report_retryable (s : Db) (message_id : Nat) (attempted_at : Int)
    (attempted : Int) (retry_earliest_at : Int) (error : String)
    (failed_id error_id : Nat) : Except DbError Unit × Db :=
  if s.messages_attempted.any (fun a => a.id = message_id) then
    (.ok (),
      { s with
          leases := s.leases.filter (fun l => l.message_id ≠ message_id)
          attempts_failed :=
            s.attempts_failed ++
              [⟨failed_id, message_id, attempted_at, attempted,
                retry_earliest_at⟩]
          errors :=
            s.errors ++ [⟨error_id, message_id, attempted_at, error⟩] })
  else
    (.error .fkViolation, s)

/-- `report_dead` (`src/queries/report_dead.rs`): deletes the message's
lease rows and `attempts_failed` rows, inserts an `attempts_dead` row, and
appends an `errors` row whose fresh id the source generates.  The error
branch is the foreign key to `messages_attempted`, modelled from the spec
and the repository's test `it_errors_if_the_message_was_not_attempted`. -/
def report_dead (s : Db) (message_id : Nat) (now : Int) (error : String)
    (error_id : Nat) : Except DbError Unit × Db :=
  if s.messages_attempted.any (fun a => a.id = message_id) then
    (.ok (),
      { s with
          leases := s.leases.filter (fun l => l.message_id ≠ message_id)
          attempts_failed :=
            s.attempts_failed.filter (fun f => f.message_id ≠ message_id)
          attempts_dead := s.attempts_dead ++ [⟨message_id, now⟩]
          errors := s.errors ++ [⟨error_id, message_id, now, error⟩] })
  else
    (.error .fkViolation, s)

/-! ## State predicates (`src/testing_tools.rs`) -/

/-- The derived lifecycle states (`enum State` in `src/testing_tools.rs`). -/
inductive MsgState where
  | Pending
  | InProgress
  | Missing
  | Failed
  | Succeeded
  | Dead
deriving DecidableEq, Repr

/-- The eight booleans of `struct RawState`. -/
structure RawState where
  is_pending : Bool
  is_attempted : Bool
  has_any_lease : Bool
  has_active_lease : Bool
  has_failed_attempts : Bool
  has_errors : Bool
  is_succeeded : Bool
  is_dead : Bool
deriving DecidableEq, Repr

/-- `get_raw_state`: the eight per-message `EXISTS` checks of the SQL in
`src/testing_tools.rs` (each subquery is restricted to `message_id =
message_id` through the CTEs of the statement). -/
def get_raw_state (s : Db) (message_id : Nat) (now : Int) : RawState :=
  { is_pending := s.messages_unattempted.any fun r => r.id = message_id
    is_attempted := s.messages_attempted.any fun r => r.id = message_id
    has_any_lease := s.leases.any fun l => l.message_id = message_id
    has_active_lease :=
      s.leases.any fun l => l.message_id = message_id && l.expires_at > now
    has_failed_attempts :=
      s.attempts_failed.any fun f => f.message_id = message_id
    has_errors := s.errors.any fun e => e.message_id = message_id
    is_succeeded := s.attempts_succeeded.any fun x => x.message_id = message_id
    is_dead := s.attempts_dead.any fun d => d.message_id = message_id }

/-- `RawState::get_state`: the match of `src/testing_tools.rs`; the `panic!`
on an undefined combination is modelled as `none`. -/
def RawState.get_state (r : RawState) : Option MsgState :=
  match r.is_pending, r.is_attempted, r.has_any_lease, r.has_active_lease,
    r.has_failed_attempts, r.has_errors, r.is_succeeded, r.is_dead with
  | true, false, false, false, false, false, false, false =>
    some .Pending
  | false, true, true, true, _, _, false, false =>
    some .InProgress
  | false, true, true, false, _, _, false, false =>
    some .Missing
  | false, true, false, false, true, true, false, false =>
    some .Failed
  | false, true, false, false, false, _, true, false =>
    some .Succeeded
  | false, true, false, false, false, true, false, true =>
    some .Dead
  | _, _, _, _, _, _, _, _ => none

/-- `is_of_state`. -/
def is_of_state (s : Db) (st : MsgState) (message_id : Nat) (now : Int) :
    Bool :=
  (get_raw_state s message_id now).get_state = some st

/-- `is_missing`. -/
def is_missing (s : Db) (message_id : Nat) (now : Int) : Bool :=
  is_of_state s .Missing message_id now

/-- `is_in_progress`. -/
def is_in_progress (s : Db) (message_id : Nat) (now : Int) : Bool :=
  is_of_state s .InProgress message_id now

/-- Eligibility of message `m` for selection by `get_next_missing`: some
attempted row with id `m` satisfies the candidate `WHERE` clause. -/
def missing_eligible (s : Db) (now : Int) (m : Nat) : Bool :=
  s.messages_attempted.any fun ma => ma.id = m && missing_candidate s now ma

/-! ## Operation traces

`Op` packages one call of a public query operation with all its arguments
(including the ids the source draws fresh from `Uuid::now_v7`); `applyOp`
runs it, keeping the state unchanged when the operation errors, exactly as
an aborted transaction would. -/

/-- One call of a public query-layer operation. -/
inductive Op where
  | publish (m : RawMessage) (now : Int)
  | next_unattempted (now : Int) (host_id : Nat) (hold_for : Nat)
  | next_retryable (now : Int) (host_id : Nat) (hold_for : Nat)
  | next_missing (now : Int) (host_id : Nat) (hold_for : Nat)
  | success (message_id : Nat) (now : Int)
  | retryable (message_id : Nat) (attempted_at : Int) (attempted : Int)
      (retry_earliest_at : Int) (error : String) (failed_id error_id : Nat)
  | dead (message_id : Nat) (now : Int) (error : String) (error_id : Nat)
  | lease (message_id : Nat) (now : Int) (host_id : Nat) (hold_for : Nat)
deriving DecidableEq, Repr

/-- Run one operation, ignoring its result (an errored operation leaves the
state unchanged by construction of the query functions). -/
def applyOp (s : Db) : Op → Db
  | .publish m now => (publish_message s m now).2
  | .next_unattempted now host hold => (get_next_unattempted s now host hold).2
  | .next_retryable now host hold => (get_next_retryable s now host hold).2
  | .next_missing now host hold => (get_next_missing s now host hold).2
  | .success m now => (report_success s m now).2
  | .retryable m at_ att retry err fid eid =>
    (report_retryable s m at_ att retry err fid eid).2
  | .dead m now err eid => (report_dead s m now err eid).2
  | .lease m now host hold => (request_lease s m now host hold).2

/-- Run a trace of operations from a state. -/
def runOps (s : Db) (ops : List Op) : Db :=
  ops.foldl applyOp s

/-- Witness database for C3: two unattempted rows, the second one older. -/
def unattemptedWitnessDb : Db :=
  ⟨[⟨1, "a", 7, "x", 5⟩, ⟨2, "b", 8, "y", 3⟩], [], [], [], [], [], []⟩

/-- Witness database for C4: one attempted message with one failed attempt
whose retry instant has passed and no lease. -/
def retryWitnessDb : Db :=
  ⟨[], [⟨1, "a", 0, "x", 0⟩], [], [⟨10, 1, 5, 2, 3⟩], [], [], []⟩

/-- Witness database for C6: message 1 attempted and leased, message 2
nowhere. -/
def reportWitnessDb : Db :=
  ⟨[], [⟨1, "a", 0, "x", 0⟩], [⟨1, 0, 7, 9⟩], [], [], [], []⟩

/-- Witness database for C7: one attempted message with a single expired
lease. -/
def missingWitnessDb : Db :=
  ⟨[], [⟨1, "a", 0, "x", 0⟩], [⟨1, 0, 7, 4⟩], [], [], [], []⟩

/-- Invariant 3 of the spec (claim C2): every lease row's `message_id` is
present in `messages_attempted`. -/
def leases_fk (s : Db) : Bool :=
  s.leases.all fun l => s.messages_attempted.any fun a => a.id = l.message_id

/-- Auxiliary invariant: every `attempts_failed` row's `message_id` is
present in `messages_attempted`. -/
def failed_fk (s : Db) : Bool :=
  s.attempts_failed.all fun f =>
    s.messages_attempted.any fun a => a.id = f.message_id

/-- Auxiliary invariant: every `attempts_succeeded` and `attempts_dead`
row's `message_id` is present in `messages_attempted`. -/
def terminal_fk (s : Db) : Bool :=
  (s.attempts_succeeded.all fun r =>
    s.messages_attempted.any fun a => a.id = r.message_id) &&
  (s.attempts_dead.all fun r =>
    s.messages_attempted.any fun a => a.id = r.message_id)

/-- Invariant 4 of the spec (claim C5): no message has both an
`attempts_succeeded` and an `attempts_dead` row, and a message with either
has no lease row and no `attempts_failed` row. -/
def terminal_inv (s : Db) : Bool :=
  (s.attempts_succeeded.all fun r =>
    !(s.attempts_dead.any fun d => d.message_id = r.message_id) &&
    !(s.leases.any fun l => l.message_id = r.message_id) &&
    !(s.attempts_failed.any fun f => f.message_id = r.message_id)) &&
  (s.attempts_dead.all fun r =>
    !(s.leases.any fun l => l.message_id = r.message_id) &&
    !(s.attempts_failed.any fun f => f.message_id = r.message_id))

/-- Side condition for the amended claim C2: a `request_lease` call targets
a message already in `messages_attempted`; every other operation is
unrestricted. -/
def ok_lease_op (s : Db) : Op → Bool
  | .lease m _ _ _ => s.messages_attempted.any fun a => a.id = m
  | _ => true

/-- `good_lease_trace s ops`: every operation of the trace satisfies
`ok_lease_op` in the state where it runs. -/
def good_lease_trace : Db → List Op → Bool
  | _, [] => true
  | s, op :: rest => ok_lease_op s op && good_lease_trace (applyOp s op) rest

/-- Message `m` has neither an `attempts_succeeded` nor an `attempts_dead`
row. -/
def no_terminal (s : Db) (m : Nat) : Bool :=
  !(s.attempts_succeeded.any fun x => x.message_id = m) &&
  !(s.attempts_dead.any fun x => x.message_id = m)

/-- Side condition for the amended claim C5: report operations and
`request_lease` are only invoked on messages without a terminal
(succeeded/dead) row; every other operation is unrestricted. -/
def ok_terminal_op (s : Db) : Op → Bool
  | .success m _ => no_terminal s m
  | .retryable m _ _ _ _ _ _ => no_terminal s m
  | .dead m _ _ _ => no_terminal s m
  | .lease m _ _ _ => no_terminal s m
  | _ => true

/-- `good_terminal_trace s ops`: every operation of the trace satisfies
`ok_terminal_op` in the state where it runs. -/
def good_terminal_trace : Db → List Op → Bool
  | _, [] => true
  | s, op :: rest =>
    ok_terminal_op s op && good_terminal_trace (applyOp s op) rest

/-! ## Theorems -/

/-- C9: the three backoff strategies are pure functions of their immutable
parameters and arguments; `ConstantBackoff::try_at(k, t) = t + base_delay`
independently of `k`; `LinearBackoff::try_at(k, t) = t + base_delay * k`
(the attempt count is a `u32` in the source); `ExponentialBackoff::try_at(k,
t) = t` for `k ≤ 0` and `t + base_delay * base ^ (k - 1)` for `k > 0`. -/
theorem backoff_try_at_spec (c : ConstantBackoff) (lb : LinearBackoff)
    (e : ExponentialBackoff) (k : Int) (n : Nat) (t : Int) :
    c.try_at k t = t + c.base_delay ∧
    lb.try_at n t = t + lb.base_delay * n ∧
    (k ≤ 0 → e.try_at k t = t) ∧
    (0 < k → e.try_at k t = t + e.base_delay * e.base ^ (k - 1).toNat) := by
  refine ⟨rfl, rfl, fun h => ?_, fun h => ?_⟩
  · simp [ExponentialBackoff.try_at, h]
  · unfold ExponentialBackoff.try_at
    rw [if_neg (not_le.mpr h)]
    have hk : k.toNat - 1 = (k - 1).toNat := by omega
    rw [hk]

/-- Witness for C9: the two hypothesised branches of
`backoff_try_at_spec` at concrete inputs. -/
theorem backoff_try_at_spec_witness :
    ((-1 : Int) ≤ 0 ∧ (ExponentialBackoff.mk 2 3).try_at (-1) 10 = 10) ∧
    ((0 : Int) < 3 ∧
      (ExponentialBackoff.mk 2 3).try_at 3 10 =
        10 + 3 * 2 ^ ((3 : Int) - 1).toNat) :=
  ⟨⟨by decide, (backoff_try_at_spec ⟨3⟩ ⟨3⟩ ⟨2, 3⟩ (-1) 0 10).2.2.1 (by decide)⟩,
   ⟨by decide, (backoff_try_at_spec ⟨3⟩ ⟨3⟩ ⟨2, 3⟩ 3 0 10).2.2.2 (by decide)⟩⟩

/-- `handle_backoff_timing` never touches the `poll` flag, and on an emit it
sets `reference_time` to the current instant. -/
theorem handle_backoff_timing_effect (s : PollControlStream) (now a : Int) :
    (s.handle_backoff_timing now a).2.poll = s.poll ∧
    ((s.handle_backoff_timing now a).1 = .ready true →
      (s.handle_backoff_timing now a).2.reference_time = now) := by
  unfold PollControlStream.handle_backoff_timing
  split <;> simp

set_option maxRecDepth 8192 in
/-- C8 counterexample: construct a stream (the `poll` flag becomes `true`)
and increment the failed-attempts counter before any emit; `poll_next` at a
late-enough instant then emits a token through the failed-attempts backoff
path and leaves the `poll` flag `true`, so "after every emitted token the
poll flag is false" fails for states with `failed_attempts > 0`. -/
theorem poll_flag_survives_backoff_emit :
    ((PollControlStream.new ⟨2, 5⟩ 0).increment_failed_attempts.poll_next
        100 .pending).1 = .ready true ∧
    ((PollControlStream.new ⟨2, 5⟩ 0).increment_failed_attempts.poll_next
        100 .pending).2.poll = true ∧
    (PollControlStream.new ⟨2, 5⟩ 0).increment_failed_attempts.failed_attempts
        > 0 := by
  decide

/-- C8 (amended): a newly constructed stream's first `poll_next` emits
immediately, clears the `poll` flag and sets `reference_time` to the emit
time; in general, every emitted token sets `reference_time` to the emit
time, and the `poll` flag is false after an emit from a state with
`failed_attempts ≤ 0` (an emit through the failed-attempts backoff path
leaves the flag unchanged, so the original claim's "including states with
`failed_attempts > 0`" does not hold). -/
theorem poll_next_emit_spec (s : PollControlStream) (now : Int)
    (up : PgUpstreamPoll) (b : ExponentialBackoff) (t0 : Int) :
    ((PollControlStream.new b t0).poll_next now up).1 = .ready true ∧
    ((PollControlStream.new b t0).poll_next now up).2.poll = false ∧
    ((PollControlStream.new b t0).poll_next now up).2.reference_time = now ∧
    ((s.poll_next now up).1 = .ready true →
      (s.poll_next now up).2.reference_time = now) ∧
    ((s.poll_next now up).1 = .ready true → s.failed_attempts ≤ 0 →
      (s.poll_next now up).2.poll = false) := by
  have hbk : ∀ a, (s.handle_backoff_timing now a).1 = .ready true →
      (s.handle_backoff_timing now a).2.reference_time = now ∧
      (s.handle_backoff_timing now a).2.poll = s.poll := fun a h =>
    ⟨(handle_backoff_timing_effect s now a).2 h,
     (handle_backoff_timing_effect s now a).1⟩
  refine ⟨?_, ?_, ?_, ?_, ?_⟩
  · simp [PollControlStream.poll_next, PollControlStream.new]
  · simp [PollControlStream.poll_next, PollControlStream.new]
  · simp [PollControlStream.poll_next, PollControlStream.new]
  · intro h
    by_cases hf : s.failed_attempts > 0
    · rw [show s.poll_next now up =
          s.handle_backoff_timing now s.failed_attempts by
        unfold PollControlStream.poll_next; rw [if_pos hf]] at h ⊢
      exact (hbk _ h).1
    · by_cases hp : s.poll = true
      · rw [show s.poll_next now up =
            (.ready true, { s with poll := false, reference_time := now }) by
          unfold PollControlStream.poll_next; rw [if_neg hf, if_pos hp]]
      · rcases hpg : s.pg_stream with _ | u
        · rw [show s.poll_next now up = s.handle_backoff_timing now 1 by
            unfold PollControlStream.poll_next
            rw [if_neg hf, if_neg hp, hpg]] at h ⊢
          exact (hbk _ h).1
        · cases up <;>
            [skip; skip;
             (rw [show s.poll_next now .readyNone =
                  s.handle_backoff_timing now 1 by
                unfold PollControlStream.poll_next
                rw [if_neg hf, if_neg hp, hpg]] at h ⊢; exact (hbk _ h).1);
             (rw [show s.poll_next now .pending =
                  s.handle_backoff_timing now 1 by
                unfold PollControlStream.poll_next
                rw [if_neg hf, if_neg hp, hpg]] at h ⊢; exact (hbk _ h).1)]
          · rw [show s.poll_next now .readyOk =
                (.ready true, { s with reference_time := now }) by
              unfold PollControlStream.poll_next
              rw [if_neg hf, if_neg hp, hpg]]
          · rw [show s.poll_next now .readyErr = (.readyErr, s) by
              unfold PollControlStream.poll_next
              rw [if_neg hf, if_neg hp, hpg]] at h
            exact absurd h (by simp)
  · intro h hf0
    have hf : ¬s.failed_attempts > 0 := by omega
    by_cases hp : s.poll = true
    · rw [show s.poll_next now up =
          (.ready true, { s with poll := false, reference_time := now }) by
        unfold PollControlStream.poll_next; rw [if_neg hf, if_pos hp]]
    · have hpfalse : s.poll = false := by simpa using hp
      rcases hpg : s.pg_stream with _ | u
      · rw [show s.poll_next now up = s.handle_backoff_timing now 1 by
          unfold PollControlStream.poll_next
          rw [if_neg hf, if_neg hp, hpg]] at h ⊢
        rw [(hbk _ h).2, hpfalse]
      · cases up <;>
          [skip; skip;
           (rw [show s.poll_next now .readyNone =
                s.handle_backoff_timing now 1 by
              unfold PollControlStream.poll_next
              rw [if_neg hf, if_neg hp, hpg]] at h ⊢;
            rw [(hbk _ h).2, hpfalse]);
           (rw [show s.poll_next now .pending =
                s.handle_backoff_timing now 1 by
              unfold PollControlStream.poll_next
              rw [if_neg hf, if_neg hp, hpg]] at h ⊢;
            rw [(hbk _ h).2, hpfalse])]
        · rw [show s.poll_next now .readyOk =
              (.ready true, { s with reference_time := now }) by
            unfold PollControlStream.poll_next
            rw [if_neg hf, if_neg hp, hpg]]
          exact hpfalse
        · rw [show s.poll_next now .readyErr = (.readyErr, s) by
            unfold PollControlStream.poll_next
            rw [if_neg hf, if_neg hp, hpg]] at h
          exact absurd h (by simp)

/-- Witness for C8 (amended): a concrete emit through the manual-override
path with all hypotheses discharged. -/
theorem poll_next_emit_spec_witness :
    ((PollControlStream.mk none 0 0 ⟨2, 5⟩ true).poll_next 7 .pending).1 =
        .ready true ∧
    (0 : Int) ≤ 0 ∧
    ((PollControlStream.mk none 0 0 ⟨2, 5⟩ true).poll_next 7 .pending).2.poll
        = false :=
  ⟨by decide, by decide,
    (poll_next_emit_spec ⟨none, 0, 0, ⟨2, 5⟩, true⟩ 7 .pending ⟨2, 5⟩ 0).2.2.2.2
      (by decide) (by decide)⟩

/-- C1: evaluation of `request_lease` at the failing input.  The state holds
a single active lease, held by host 99 on message 2; host 7 requests a lease
on message 1, for which no lease row at all exists.  The claim (and the
function's own doc comment, "no other host holds a lease for the requested
message") requires success, but the `NOT EXISTS` subquery of the source has
no `message_id` filter, so the call returns `none` and inserts nothing. -/
theorem request_lease_blocked_by_foreign_message_lease :
    (request_lease ⟨[], [], [⟨2, 0, 99, 10⟩], [], [], [], []⟩ 1 0 7 5).1 =
        none ∧
    (request_lease ⟨[], [], [⟨2, 0, 99, 10⟩], [], [], [], []⟩ 1 0 7 5).2 =
        ⟨[], [], [⟨2, 0, 99, 10⟩], [], [], [], []⟩ ∧
    (([⟨2, 0, 99, 10⟩] : List Lease).all fun l => l.message_id ≠ 1) = true := by
  decide

/-- C2 counterexample: `request_lease` is one of the listed public
operations, and a single `request_lease` call from the empty database (the
trace the repository's own test `it_acquires_a_lease_when_none_is_held`
runs) produces a lease row whose message is in no table at all, so the
reachable-state invariant "every lease row's message_id is in
`messages_attempted`" fails as stated. -/
theorem lease_fk_fails_on_request_lease :
    leases_fk (runOps Db.empty [.lease 1 0 7 5]) = false := by
  decide

/-- C5 counterexample: publish, dispatch, `report_success`, then
`report_dead` — each operation succeeds (the message is in
`messages_attempted`), and the final state has both an `attempts_succeeded`
and an `attempts_dead` row for message 1, so the invariant fails over
unrestricted sequences of the public operations. -/
theorem terminal_inv_fails_on_success_then_dead :
    terminal_inv (runOps Db.empty
      [.publish ⟨1, "n", 0, "p", 0⟩ 0, .next_unattempted 1 7 5,
       .success 1 2, .dead 1 3 "boom" 9]) = false := by
  decide

/-! ### `ORDER BY ... LIMIT 1` selection lemmas -/

theorem minByLe_mem {le : α → α → Bool} :
    ∀ {xs : List α} {x : α}, minByLe le xs = some x → x ∈ xs := by
  intro xs
  induction xs with
  | nil => intro x h; simp [minByLe] at h
  | cons a as ih =>
    intro x h
    cases hm : minByLe le as with
    | none =>
      simp only [minByLe, hm] at h
      cases h
      exact List.mem_cons_self a as
    | some y =>
      simp only [minByLe, hm] at h
      by_cases hle : le a y = true
      · rw [if_pos hle] at h
        cases h
        exact List.mem_cons_self a as
      · rw [if_neg hle] at h
        cases h
        exact List.mem_cons_of_mem a (ih hm)

theorem minByLe_eq_none {le : α → α → Bool} :
    ∀ {xs : List α}, minByLe le xs = none ↔ xs = [] := by
  intro xs
  cases xs with
  | nil => simp [minByLe]
  | cons a as =>
    simp only [minByLe]
    cases minByLe le as <;> simp
    split <;> simp

theorem minByLe_min {le : α → α → Bool}
    (htot : ∀ a b, le a b = true ∨ le b a = true)
    (htrans : ∀ a b c, le a b = true → le b c = true → le a c = true) :
    ∀ {xs : List α} {x : α}, minByLe le xs = some x →
      ∀ y ∈ xs, le x y = true := by
  intro xs
  induction xs with
  | nil => intro x h; simp [minByLe] at h
  | cons a as ih =>
    intro x h y hy
    have hrefl : ∀ z, le z z = true := fun z => by
      rcases htot z z with h' | h' <;> exact h'
    cases hm : minByLe le as with
    | none =>
      simp only [minByLe, hm] at h
      cases h
      rcases List.mem_cons.mp hy with rfl | hy'
      · exact hrefl y
      · exact absurd (minByLe_eq_none.mp hm ▸ hy') (List.not_mem_nil y)
    | some m =>
      simp only [minByLe, hm] at h
      by_cases hle : le a m = true
      · rw [if_pos hle] at h
        cases h
        rcases List.mem_cons.mp hy with rfl | hy'
        · exact hrefl y
        · exact htrans _ _ _ hle (ih hm y hy')
      · rw [if_neg hle] at h
        cases h
        rcases List.mem_cons.mp hy with rfl | hy'
        · rcases htot x y with h' | h'
          · exact h'
          · exact absurd h' hle
        · exact ih hm y hy'

theorem msgRowLe_total (a b : MsgRow) :
    msgRowLe a b = true ∨ msgRowLe b a = true := by
  simp only [msgRowLe, Bool.or_eq_true, Bool.and_eq_true, decide_eq_true_eq]
  omega

theorem msgRowLe_trans (a b c : MsgRow) (h1 : msgRowLe a b = true)
    (h2 : msgRowLe b c = true) : msgRowLe a c = true := by
  simp only [msgRowLe, Bool.or_eq_true, Bool.and_eq_true,
    decide_eq_true_eq] at h1 h2 ⊢
  omega

theorem failedRowLe_total (a b : FailedRow) :
    failedRowLe a b = true ∨ failedRowLe b a = true := by
  simp only [failedRowLe, Bool.or_eq_true, Bool.and_eq_true,
    decide_eq_true_eq]
  omega

theorem failedRowLe_trans (a b c : FailedRow) (h1 : failedRowLe a b = true)
    (h2 : failedRowLe b c = true) : failedRowLe a c = true := by
  simp only [failedRowLe, Bool.or_eq_true, Bool.and_eq_true,
    decide_eq_true_eq] at h1 h2 ⊢
  omega

theorem publishedLe_total (a b : MsgRow) :
    publishedLe a b = true ∨ publishedLe b a = true := by
  simp only [publishedLe, decide_eq_true_eq]
  omega

theorem publishedLe_trans (a b c : MsgRow) (h1 : publishedLe a b = true)
    (h2 : publishedLe b c = true) : publishedLe a c = true := by
  simp only [publishedLe, decide_eq_true_eq] at h1 h2 ⊢
  omega

theorem msgRowLe_iff (a b : MsgRow) :
    msgRowLe a b = true ↔
      (a.published_at < b.published_at ∨
        (a.published_at = b.published_at ∧ a.id ≤ b.id)) := by
  simp [msgRowLe]

theorem filter_id_singleton {l : List MsgRow}
    (hn : (l.map MsgRow.id).Nodup) {r : MsgRow} (hr : r ∈ l) :
    (l.filter fun x => x.id = r.id) = [r] := by
  induction l with
  | nil => cases hr
  | cons a as ih =>
    simp only [List.map_cons, List.nodup_cons] at hn
    rcases List.mem_cons.mp hr with rfl | hra
    · have hnil : (as.filter fun x => x.id = r.id) = [] := by
        rw [List.filter_eq_nil_iff]
        intro x hx
        simp only [decide_eq_true_eq]
        intro hxa
        exact hn.1 (hxa ▸ List.mem_map_of_mem MsgRow.id hx)
      rw [List.filter_cons, if_pos (by simp), hnil]
    · have hne : ¬a.id = r.id := by
        intro h
        exact hn.1 (h ▸ List.mem_map_of_mem MsgRow.id hra)
      rw [List.filter_cons, if_neg (by simp [hne])]
      exact ih hn.2 hra

theorem filter_ne_id_eq_erase {l : List MsgRow}
    (hn : (l.map MsgRow.id).Nodup) {r : MsgRow} (hr : r ∈ l) :
    (l.filter fun x => x.id ≠ r.id) = l.erase r := by
  induction l with
  | nil => cases hr
  | cons a as ih =>
    simp only [List.map_cons, List.nodup_cons] at hn
    rcases List.mem_cons.mp hr with rfl | hra
    · have hself : (as.filter fun x => x.id ≠ r.id) = as := by
        rw [List.filter_eq_self]
        intro x hx
        simp only [ne_eq, decide_not, Bool.not_eq_true', decide_eq_false_iff_not]
        intro hxa
        exact hn.1 (hxa ▸ List.mem_map_of_mem MsgRow.id hx)
      rw [List.filter_cons, if_neg (by simp), hself, List.erase_cons_head]
    · have hnid : ¬a.id = r.id := by
        intro h
        exact hn.1 (h ▸ List.mem_map_of_mem MsgRow.id hra)
      have hne : a ≠ r := fun h => hnid (h ▸ rfl)
      rw [List.filter_cons, if_pos (by simp [hnid]),
        List.erase_cons_tail (by simp [hne]), ih hn.2 hra]

/-- C3: a single step of `get_next_unattempted(now, host_id, hold_for)` on a
database whose `messages_unattempted` ids are unique and disjoint from
`messages_attempted` (the primary keys guarantee both in every real state):
if `messages_unattempted` is empty it returns `none` and changes nothing;
otherwise it deletes exactly the row minimal under
`(published_at ASC, id ASC)`, inserts the lease
`(id, now, host_id, now + hold_for)`, copies the row's fields into
`messages_attempted`, and returns the message with `attempted = 0`. -/
theorem get_next_unattempted_spec (s : Db) (now : Int) (host_id : Nat)
    (hold_for : Nat)
    (hnodup : (s.messages_unattempted.map MsgRow.id).Nodup)
    (hdisj : ∀ r ∈ s.messages_unattempted,
      ∀ a ∈ s.messages_attempted, r.id ≠ a.id) :
    (s.messages_unattempted = [] →
      get_next_unattempted s now host_id hold_for = (.ok none, s)) ∧
    (s.messages_unattempted ≠ [] →
      ∃ r ∈ s.messages_unattempted,
        (∀ y ∈ s.messages_unattempted,
          r.published_at < y.published_at ∨
            (r.published_at = y.published_at ∧ r.id ≤ y.id)) ∧
        get_next_unattempted s now host_id hold_for =
          (.ok (some ⟨r.id, r.name, r.hash, r.payload, 0⟩),
            { s with
                messages_unattempted := s.messages_unattempted.erase r
                leases := s.leases ++ [⟨r.id, now, host_id, now + hold_for⟩]
                messages_attempted := s.messages_attempted ++ [r] })) := by
  constructor
  · intro hnil
    unfold get_next_unattempted
    rw [show minByLe msgRowLe s.messages_unattempted = none from
      minByLe_eq_none.mpr hnil]
  · intro hne
    cases hm : minByLe msgRowLe s.messages_unattempted with
    | none => exact absurd (minByLe_eq_none.mp hm) hne
    | some r =>
      have hrmem := minByLe_mem hm
      have hmin := minByLe_min msgRowLe_total msgRowLe_trans hm
      have hdel := filter_id_singleton hnodup hrmem
      have herase := filter_ne_id_eq_erase hnodup hrmem
      have hany : (s.messages_attempted.any fun a => a.id = r.id) = false := by
        rw [List.any_eq_false]
        intro a ha
        simp only [decide_eq_true_eq]
        exact fun h => hdisj r hrmem a ha h.symm
      refine ⟨r, hrmem, fun y hy => (msgRowLe_iff r y).mp (hmin y hy), ?_⟩
      simp only [get_next_unattempted, hm]
      rw [if_neg (by rw [hdel, hany]; simp)]
      rw [hdel, herase]
      rfl

/-- Witness for C3: on `unattemptedWitnessDb` the hypotheses hold and the
minimal row (`published_at = 3`) is dispatched. -/
theorem get_next_unattempted_spec_witness :
    ∃ r ∈ unattemptedWitnessDb.messages_unattempted,
      (∀ y ∈ unattemptedWitnessDb.messages_unattempted,
        r.published_at < y.published_at ∨
          (r.published_at = y.published_at ∧ r.id ≤ y.id)) ∧
      get_next_unattempted unattemptedWitnessDb 10 7 60 =
        (.ok (some ⟨r.id, r.name, r.hash, r.payload, 0⟩),
          { unattemptedWitnessDb with
              messages_unattempted :=
                unattemptedWitnessDb.messages_unattempted.erase r
              leases := unattemptedWitnessDb.leases ++ [⟨r.id, 10, 7, 10 + 60⟩]
              messages_attempted :=
                unattemptedWitnessDb.messages_attempted ++ [r] }) :=
  (get_next_unattempted_spec unattemptedWitnessDb 10 7 60 (by decide)
    (by decide)).2 (by decide)

theorem failedRowLe_iff (a b : FailedRow) :
    failedRowLe a b = true ↔
      (a.failed_at < b.failed_at ∨
        (a.failed_at = b.failed_at ∧ a.message_id ≤ b.message_id)) := by
  simp [failedRowLe]

/-- C4: `get_next_retryable(now, host_id, hold_for)` on a state whose
`attempts_failed` rows all reference `messages_attempted` (the foreign key):
it returns a message exactly when some `attempts_failed` row satisfies the
candidate clause (`retry_earliest_at ≤ now`, no lease of that message with
`expires_at > now`, and `failed_at` maximal among the message's failed
rows); the returned message comes from the candidate row minimal under
`(failed_at ASC, message_id ASC)`, carries the `messages_attempted` fields
and the candidate's `attempted` counter, and the only state change is the
insertion of the fresh lease `(message_id, now, host_id, now + hold_for)`;
with no candidate it returns `none` and changes nothing. -/
theorem get_next_retryable_spec (s : Db) (now : Int) (host_id hold_for : Nat)
    (hfk : failed_fk s = true) :
    ((∃ m, (get_next_retryable s now host_id hold_for).1 = .ok (some m)) ↔
      ∃ f ∈ s.attempts_failed, retry_candidate s now f = true) ∧
    (∀ m, (get_next_retryable s now host_id hold_for).1 = .ok (some m) →
      ∃ f ∈ s.attempts_failed,
        retry_candidate s now f = true ∧
        (∀ g ∈ s.attempts_failed, retry_candidate s now g = true →
          f.failed_at < g.failed_at ∨
            (f.failed_at = g.failed_at ∧ f.message_id ≤ g.message_id)) ∧
        m.id = f.message_id ∧
        m.attempted = f.attempted ∧
        (∃ a ∈ s.messages_attempted, a.id = f.message_id ∧
          m = ⟨a.id, a.name, a.hash, a.payload, f.attempted⟩) ∧
        (get_next_retryable s now host_id hold_for).2 =
          { s with leases :=
              s.leases ++ [⟨f.message_id, now, host_id, now + hold_for⟩] }) ∧
    ((get_next_retryable s now host_id hold_for).1 = .ok none →
      (get_next_retryable s now host_id hold_for).2 = s) := by
  cases hm : minByLe failedRowLe (s.attempts_failed.filter (retry_candidate s now)) with
  | none =>
    have hres : get_next_retryable s now host_id hold_for = (.ok none, s) := by
      unfold get_next_retryable
      rw [hm]
    have hnil := minByLe_eq_none.mp hm
    refine ⟨?_, ?_, ?_⟩
    · rw [hres]
      constructor
      · rintro ⟨m, hem⟩
        exact absurd hem (by simp)
      · rintro ⟨f, hf, hc⟩
        have : f ∈ s.attempts_failed.filter (retry_candidate s now) :=
          List.mem_filter.mpr ⟨hf, hc⟩
        rw [hnil] at this
        cases this
    · intro m hem
      rw [hres] at hem
      exact absurd hem (by simp)
    · intro _
      rw [hres]
  | some f =>
    have hfmem := List.mem_filter.mp (minByLe_mem hm)
    have hmin := minByLe_min failedRowLe_total failedRowLe_trans hm
    have hsome : ∃ a ∈ s.messages_attempted, a.id = f.message_id := by
      have := (List.all_eq_true.mp hfk) f hfmem.1
      simpa [List.any_eq_true] using this
    cases hfind : s.messages_attempted.find? (fun a => a.id = f.message_id) with
    | none =>
      exfalso
      rcases hsome with ⟨a, ha, hai⟩
      have := List.find?_eq_none.mp hfind a ha
      simp [hai] at this
    | some a =>
      have hamem := List.mem_of_find?_eq_some hfind
      have haid : a.id = f.message_id := by
        have := List.find?_some hfind
        simpa using this
      have hres : get_next_retryable s now host_id hold_for =
          (.ok (some ⟨a.id, a.name, a.hash, a.payload, f.attempted⟩),
            { s with leases :=
                s.leases ++ [⟨f.message_id, now, host_id, now + hold_for⟩] }) := by
        unfold get_next_retryable
        rw [hm]
        simp only [hfind]
      refine ⟨?_, ?_, ?_⟩
      · rw [hres]
        constructor
        · intro _
          exact ⟨f, hfmem.1, hfmem.2⟩
        · intro _
          exact ⟨⟨a.id, a.name, a.hash, a.payload, f.attempted⟩, rfl⟩
      · intro m hem
        rw [hres] at hem
        have hmeq : m = ⟨a.id, a.name, a.hash, a.payload, f.attempted⟩ := by
          cases hem
          rfl
        refine ⟨f, hfmem.1, hfmem.2, ?_, ?_, ?_, ?_, ?_⟩
        · intro g hg hc
          exact (failedRowLe_iff f g).mp
            (hmin g (List.mem_filter.mpr ⟨hg, hc⟩))
        · rw [hmeq]
          exact haid
        · rw [hmeq]
        · exact ⟨a, hamem, haid, hmeq⟩
        · rw [hres]
      · intro hem
        rw [hres] at hem
        exact absurd hem (by simp)

/-- Witness for C4: the foreign-key hypothesis holds on `retryWitnessDb` and
the candidate row makes `get_next_retryable` return a message. -/
theorem get_next_retryable_spec_witness :
    failed_fk retryWitnessDb = true ∧
    (∃ m, (get_next_retryable retryWitnessDb 4 7 60).1 = .ok (some m)) :=
  ⟨by decide,
    ((get_next_retryable_spec retryWitnessDb 4 7 60 (by decide)).1).mpr
      ⟨⟨10, 1, 5, 2, 3⟩, by decide, by decide⟩⟩

/-- C6: each report operation returns a database error exactly when the
message id is not in `messages_attempted` (the foreign key), leaves the
state unchanged on error, and on success performs its deletions and
insertions in one step: `report_success` deletes the message's leases and
failed attempts and inserts a success row; `report_retryable` deletes the
leases and appends a failed-attempt row and an error row; `report_dead`
deletes the leases and failed attempts and appends a dead row and an error
row. -/
theorem report_ops_fk_spec (s : Db) (m : Nat)
    (now attempted_at attempted retry_earliest_at : Int) (err : String)
    (fid eid eid2 : Nat) :
    ((report_success s m now).1 = .ok () ↔
      (s.messages_attempted.any fun a => a.id = m) = true) ∧
    ((s.messages_attempted.any fun a => a.id = m) = false →
      (report_success s m now).1 = .error .fkViolation ∧
      (report_success s m now).2 = s) ∧
    ((s.messages_attempted.any fun a => a.id = m) = true →
      (report_success s m now).2 =
        { s with
            leases := s.leases.filter fun l => l.message_id ≠ m
            attempts_failed :=
              s.attempts_failed.filter fun f => f.message_id ≠ m
            attempts_succeeded := s.attempts_succeeded ++ [⟨m, now⟩] }) ∧
    ((report_retryable s m attempted_at attempted retry_earliest_at err fid
        eid).1 = .ok () ↔
      (s.messages_attempted.any fun a => a.id = m) = true) ∧
    ((s.messages_attempted.any fun a => a.id = m) = false →
      (report_retryable s m attempted_at attempted retry_earliest_at err fid
        eid).1 = .error .fkViolation ∧
      (report_retryable s m attempted_at attempted retry_earliest_at err fid
        eid).2 = s) ∧
    ((s.messages_attempted.any fun a => a.id = m) = true →
      (report_retryable s m attempted_at attempted retry_earliest_at err fid
        eid).2 =
        { s with
            leases := s.leases.filter fun l => l.message_id ≠ m
            attempts_failed :=
              s.attempts_failed ++
                [⟨fid, m, attempted_at, attempted, retry_earliest_at⟩]
            errors := s.errors ++ [⟨eid, m, attempted_at, err⟩] }) ∧
    ((report_dead s m now err eid2).1 = .ok () ↔
      (s.messages_attempted.any fun a => a.id = m) = true) ∧
    ((s.messages_attempted.any fun a => a.id = m) = false →
      (report_dead s m now err eid2).1 = .error .fkViolation ∧
      (report_dead s m now err eid2).2 = s) ∧
    ((s.messages_attempted.any fun a => a.id = m) = true →
      (report_dead s m now err eid2).2 =
        { s with
            leases := s.leases.filter fun l => l.message_id ≠ m
            attempts_failed :=
              s.attempts_failed.filter fun f => f.message_id ≠ m
            attempts_dead := s.attempts_dead ++ [⟨m, now⟩]
            errors := s.errors ++ [⟨eid2, m, now, err⟩] }) := by
  by_cases h : (s.messages_attempted.any fun a => a.id = m) = true <;>
    refine ⟨?_, ?_, ?_, ?_, ?_, ?_, ?_, ?_, ?_⟩ <;>
    simp [report_success, report_retryable, report_dead, h]

/-- Witness for C6: `report_success` succeeds on the attempted message 1,
and errors without a state change on the unknown message 2. -/
theorem report_ops_fk_spec_witness :
    ((report_success reportWitnessDb 1 5).1 = .ok () ↔
      (reportWitnessDb.messages_attempted.any fun a => a.id = 1) = true) ∧
    ((reportWitnessDb.messages_attempted.any fun a => a.id = 2) = false ∧
      (report_success reportWitnessDb 2 5).2 = reportWitnessDb) :=
  ⟨(report_ops_fk_spec reportWitnessDb 1 5 0 0 0 "e" 0 0 0).1,
   ⟨by decide,
    ((report_ops_fk_spec reportWitnessDb 2 5 0 0 0 "e" 0 0 0).2.1
      (by decide)).2⟩⟩

theorem lease_any_gt (L : List Lease) (m : Nat) (now : Int) :
    (L.any fun x => x.message_id = m && x.expires_at > now) =
      ((L.filter fun x => x.message_id = m).any fun x =>
        x.expires_at > now) := by
  induction L with
  | nil => rfl
  | cons a as ih =>
    rw [List.any_cons, List.filter_cons]
    cases hp : decide (a.message_id = m)
    · rw [if_neg Bool.false_ne_true]
      simp only [Bool.false_and, Bool.false_or]
      exact ih
    · rw [if_pos rfl, List.any_cons]
      simp only [Bool.true_and]
      rw [ih]

theorem lease_any_lt (L : List Lease) (m : Nat) (now : Int) :
    (L.any fun x => x.message_id = m && x.expires_at < now) =
      ((L.filter fun x => x.message_id = m).any fun x =>
        x.expires_at < now) := by
  induction L with
  | nil => rfl
  | cons a as ih =>
    rw [List.any_cons, List.filter_cons]
    cases hp : decide (a.message_id = m)
    · rw [if_neg Bool.false_ne_true]
      simp only [Bool.false_and, Bool.false_or]
      exact ih
    · rw [if_pos rfl, List.any_cons]
      simp only [Bool.true_and]
      rw [ih]

/-- C7: for a message in `messages_attempted` that is not pending, holds
exactly one lease row and has neither a success nor a dead row, and for any
instant `now`: the message is classified Missing (in the sense of the
claim: `is_missing` holds and the message is eligible for selection by
`get_next_missing`) exactly when the lease's `expires_at < now`, and
classified InProgress exactly when `expires_at > now`.  (At the boundary
`expires_at = now` the predicate `is_missing` alone is already true, but
the message is not yet eligible for `get_next_missing`, whose clause is
strict.) -/
theorem missing_classification_spec (s : Db) (m : Nat) (now : Int)
    (l : Lease)
    (hl : (s.leases.filter fun x => x.message_id = m) = [l])
    (hat : (s.messages_attempted.any fun a => a.id = m) = true)
    (hun : (s.messages_unattempted.any fun r => r.id = m) = false)
    (hsucc : (s.attempts_succeeded.any fun x => x.message_id = m) = false)
    (hdead : (s.attempts_dead.any fun x => x.message_id = m) = false) :
    ((is_missing s m now = true ∧ missing_eligible s now m = true) ↔
      l.expires_at < now) ∧
    (is_in_progress s m now = true ↔ l.expires_at > now) := by
  have hlf : l ∈ s.leases.filter fun x => x.message_id = m := by
    rw [hl]
    exact List.mem_cons_self l []
  have hlmem : l ∈ s.leases := (List.mem_filter.mp hlf).1
  have hlid : l.message_id = m := by
    simpa using (List.mem_filter.mp hlf).2
  have hany : (s.leases.any fun x => x.message_id = m) = true :=
    List.any_eq_true.mpr ⟨l, hlmem, by simp [hlid]⟩
  have hactive :
      (s.leases.any fun x => x.message_id = m && x.expires_at > now) =
        decide (l.expires_at > now) := by
    rw [lease_any_gt, hl]
    simp
  have hexp :
      (s.leases.any fun x => x.message_id = m && x.expires_at < now) =
        decide (l.expires_at < now) := by
    rw [lease_any_lt, hl]
    simp
  have hraw : get_raw_state s m now =
      ⟨false, true, true, decide (l.expires_at > now),
        s.attempts_failed.any fun f => f.message_id = m,
        s.errors.any fun e => e.message_id = m, false, false⟩ := by
    unfold get_raw_state
    rw [hun, hat, hany, hactive, hsucc, hdead]
  have hstate : ∀ (act hf he : Bool),
      RawState.get_state ⟨false, true, true, act, hf, he, false, false⟩ =
        some (if act then MsgState.InProgress else MsgState.Missing) := by
    intro act hf he
    cases act <;> cases hf <;> cases he <;> rfl
  have helig : missing_eligible s now m = true ↔ l.expires_at < now := by
    unfold missing_eligible
    rw [List.any_eq_true]
    constructor
    · rintro ⟨ma, hma, hcond⟩
      obtain ⟨h1, h2⟩ := Bool.and_eq_true_iff.mp hcond
      have hmaid : ma.id = m := of_decide_eq_true h1
      unfold missing_candidate at h2
      obtain ⟨h3, _⟩ := Bool.and_eq_true_iff.mp h2
      obtain ⟨h4, _⟩ := Bool.and_eq_true_iff.mp h3
      rw [hmaid, hexp] at h4
      exact of_decide_eq_true h4
    · intro hlt
      obtain ⟨a, hamem, haid⟩ := List.any_eq_true.mp hat
      have haid' : a.id = m := of_decide_eq_true haid
      refine ⟨a, hamem, ?_⟩
      unfold missing_candidate
      rw [haid', hexp, hsucc, hdead]
      simp [hlt]
  constructor
  · constructor
    · rintro ⟨_, helig'⟩
      exact helig.mp helig'
    · intro hlt
      refine ⟨?_, helig.mpr hlt⟩
      have hactf : decide (l.expires_at > now) = false := by
        simp
        omega
      unfold is_missing is_of_state
      rw [hraw, hstate, hactf]
      simp
  · unfold is_in_progress is_of_state
    rw [hraw, hstate]
    by_cases hgt : l.expires_at > now
    · simp [hgt]
    · simp [hgt]

/-- Witness for C7 at a concrete state: the lease (expires 4) is expired at
instant 10, so Missing-with-eligibility holds iff `4 < 10` and InProgress
iff `4 > 10`. -/
theorem missing_classification_spec_witness :
    ((is_missing missingWitnessDb 1 10 = true ∧
      missing_eligible missingWitnessDb 10 1 = true) ↔ (4 : Int) < 10) ∧
    (is_in_progress missingWitnessDb 1 10 = true ↔ (4 : Int) > 10) :=
  missing_classification_spec missingWitnessDb 1 10 ⟨1, 0, 7, 4⟩ (by decide)
    (by decide) (by decide) (by decide) (by decide)

/-- C10: `get_next_missing(now, host_id, hold_for)` never touches
`messages_unattempted`, `messages_attempted`, `attempts_failed`,
`attempts_succeeded`, `attempts_dead` or `errors`, and never creates or
removes a lease row; either it returns `none` and the state is unchanged, or
it returns a message `m` and the only change is that every lease row of `m`
is updated in place to `(acquired_at = now, acquired_by = host_id,
expires_at = now + hold_for)`, all other lease rows staying as they were. -/
theorem get_next_missing_frame (s : Db) (now : Int) (host_id hold_for : Nat) :
    (get_next_missing s now host_id hold_for).2.messages_unattempted =
        s.messages_unattempted ∧
    (get_next_missing s now host_id hold_for).2.messages_attempted =
        s.messages_attempted ∧
    (get_next_missing s now host_id hold_for).2.attempts_failed =
        s.attempts_failed ∧
    (get_next_missing s now host_id hold_for).2.attempts_succeeded =
        s.attempts_succeeded ∧
    (get_next_missing s now host_id hold_for).2.attempts_dead =
        s.attempts_dead ∧
    (get_next_missing s now host_id hold_for).2.errors = s.errors ∧
    (get_next_missing s now host_id hold_for).2.leases.length =
        s.leases.length ∧
    (((get_next_missing s now host_id hold_for).1 = none ∧
        (get_next_missing s now host_id hold_for).2 = s) ∨
      (∃ m, (get_next_missing s now host_id hold_for).1 = some m ∧
        (get_next_missing s now host_id hold_for).2.leases =
          s.leases.map fun l =>
            if l.message_id = m.id then
              { l with acquired_at := now, acquired_by := host_id,
                       expires_at := now + hold_for }
            else l)) := by
  cases hm : minByLe publishedLe
      (s.messages_attempted.filter (missing_candidate s now)) with
  | none =>
    have hres : get_next_missing s now host_id hold_for = (none, s) := by
      unfold get_next_missing
      rw [hm]
    rw [hres]
    exact ⟨rfl, rfl, rfl, rfl, rfl, rfl, rfl, Or.inl ⟨rfl, rfl⟩⟩
  | some c =>
    have hres : get_next_missing s now host_id hold_for =
        (some ⟨c.id, c.name, c.hash, c.payload, 0⟩,
          { s with leases := s.leases.map fun l =>
              if l.message_id = c.id then
                { l with acquired_at := now, acquired_by := host_id,
                         expires_at := now + hold_for }
              else l }) := by
      unfold get_next_missing
      rw [hm]
    rw [hres]
    exact ⟨rfl, rfl, rfl, rfl, rfl, rfl, by simp,
      Or.inr ⟨⟨c.id, c.name, c.hash, c.payload, 0⟩, rfl, rfl⟩⟩

/-! ### Invariant characterizations and per-operation effect shapes -/

theorem leases_fk_iff (s : Db) :
    leases_fk s = true ↔
      ∀ l ∈ s.leases, ∃ a ∈ s.messages_attempted, a.id = l.message_id := by
  simp [leases_fk]

theorem failed_fk_iff (s : Db) :
    failed_fk s = true ↔
      ∀ f ∈ s.attempts_failed,
        ∃ a ∈ s.messages_attempted, a.id = f.message_id := by
  simp [failed_fk]

theorem terminal_fk_iff (s : Db) :
    terminal_fk s = true ↔
      (∀ r ∈ s.attempts_succeeded,
        ∃ a ∈ s.messages_attempted, a.id = r.message_id) ∧
      (∀ r ∈ s.attempts_dead,
        ∃ a ∈ s.messages_attempted, a.id = r.message_id) := by
  simp [terminal_fk]

theorem no_terminal_iff (s : Db) (m : Nat) :
    no_terminal s m = true ↔
      (∀ x ∈ s.attempts_succeeded, ¬x.message_id = m) ∧
      (∀ x ∈ s.attempts_dead, ¬x.message_id = m) := by
  simp [no_terminal]

theorem terminal_inv_iff (s : Db) :
    terminal_inv s = true ↔
      (∀ r ∈ s.attempts_succeeded,
        (∀ d ∈ s.attempts_dead, ¬d.message_id = r.message_id) ∧
        (∀ l ∈ s.leases, ¬l.message_id = r.message_id) ∧
        (∀ f ∈ s.attempts_failed, ¬f.message_id = r.message_id)) ∧
      (∀ r ∈ s.attempts_dead,
        (∀ l ∈ s.leases, ¬l.message_id = r.message_id) ∧
        (∀ f ∈ s.attempts_failed, ¬f.message_id = r.message_id)) := by
  simp [terminal_inv, and_assoc]

theorem publish_message_cases (s : Db) (m : RawMessage) (now : Int) :
    (publish_message s m now).2 = s ∨
    (publish_message s m now).2 =
      { s with messages_unattempted :=
          s.messages_unattempted ++ [⟨m.id, m.name, m.hash, m.payload, now⟩] }
    := by
  unfold publish_message
  split
  · exact Or.inl rfl
  · exact Or.inr rfl

theorem request_lease_cases (s : Db) (m : Nat) (now : Int) (host hold : Nat) :
    (request_lease s m now host hold).2 = s ∨
    (request_lease s m now host hold).2 =
      { s with leases := s.leases ++ [⟨m, now, host, now + hold⟩] } := by
  unfold request_lease
  split
  · exact Or.inl rfl
  · exact Or.inr rfl

theorem report_success_cases (s : Db) (m : Nat) (now : Int) :
    (report_success s m now).2 = s ∨
    ((s.messages_attempted.any fun a => a.id = m) = true ∧
      (report_success s m now).2 =
        { s with
            leases := s.leases.filter fun l => l.message_id ≠ m
            attempts_failed :=
              s.attempts_failed.filter fun f => f.message_id ≠ m
            attempts_succeeded := s.attempts_succeeded ++ [⟨m, now⟩] }) := by
  unfold report_success
  split
  · next h => exact Or.inr ⟨h, rfl⟩
  · exact Or.inl rfl

theorem report_retryable_cases (s : Db) (m : Nat) (at_ att retry : Int)
    (err : String) (fid eid : Nat) :
    (report_retryable s m at_ att retry err fid eid).2 = s ∨
    ((s.messages_attempted.any fun a => a.id = m) = true ∧
      (report_retryable s m at_ att retry err fid eid).2 =
        { s with
            leases := s.leases.filter fun l => l.message_id ≠ m
            attempts_failed :=
              s.attempts_failed ++ [⟨fid, m, at_, att, retry⟩]
            errors := s.errors ++ [⟨eid, m, at_, err⟩] }) := by
  unfold report_retryable
  split
  · next h => exact Or.inr ⟨h, rfl⟩
  · exact Or.inl rfl

theorem report_dead_cases (s : Db) (m : Nat) (now : Int) (err : String)
    (eid : Nat) :
    (report_dead s m now err eid).2 = s ∨
    ((s.messages_attempted.any fun a => a.id = m) = true ∧
      (report_dead s m now err eid).2 =
        { s with
            leases := s.leases.filter fun l => l.message_id ≠ m
            attempts_failed :=
              s.attempts_failed.filter fun f => f.message_id ≠ m
            attempts_dead := s.attempts_dead ++ [⟨m, now⟩]
            errors := s.errors ++ [⟨eid, m, now, err⟩] }) := by
  unfold report_dead
  split
  · next h => exact Or.inr ⟨h, rfl⟩
  · exact Or.inl rfl

theorem get_next_unattempted_cases (s : Db) (now : Int) (host hold : Nat) :
    (get_next_unattempted s now host hold).2 = s ∨
    ∃ r ∈ s.messages_unattempted,
      (s.messages_attempted.any fun a => a.id = r.id) = false ∧
      (get_next_unattempted s now host hold).2 =
        { s with
            messages_unattempted :=
              s.messages_unattempted.filter fun x => x.id ≠ r.id
            leases :=
              s.leases ++
                (s.messages_unattempted.filter fun x => x.id = r.id).map
                  fun x => ⟨x.id, now, host, now + hold⟩
            messages_attempted :=
              s.messages_attempted ++
                (s.messages_unattempted.filter fun x => x.id = r.id) } := by
  cases hm : minByLe msgRowLe s.messages_unattempted with
  | none =>
    left
    unfold get_next_unattempted
    rw [hm]
  | some r =>
    by_cases hc :
      ((s.messages_unattempted.filter fun x => x.id = r.id).length ≠ 1
        ∨ (s.messages_attempted.any fun a => a.id = r.id) = true)
    · left
      simp only [get_next_unattempted, hm]
      rw [if_pos hc]
    · right
      have hany : (s.messages_attempted.any fun a => a.id = r.id) = false := by
        rcases not_or.mp hc with ⟨_, h2⟩
        simpa using h2
      refine ⟨r, minByLe_mem hm, hany, ?_⟩
      simp only [get_next_unattempted, hm]
      rw [if_neg hc]

theorem get_next_retryable_cases (s : Db) (now : Int) (host hold : Nat) :
    (get_next_retryable s now host hold).2 = s ∨
    ∃ f ∈ s.attempts_failed,
      (get_next_retryable s now host hold).2 =
        { s with leases :=
            s.leases ++ [⟨f.message_id, now, host, now + hold⟩] } := by
  cases hm : minByLe failedRowLe
      (s.attempts_failed.filter (retry_candidate s now)) with
  | none =>
    left
    unfold get_next_retryable
    rw [hm]
  | some f =>
    right
    refine ⟨f, (List.mem_filter.mp (minByLe_mem hm)).1, ?_⟩
    simp only [get_next_retryable, hm]
    cases hfind : s.messages_attempted.find? fun a => a.id = f.message_id <;>
      simp [hfind]

theorem get_next_missing_cases (s : Db) (now : Int) (host hold : Nat) :
    (get_next_missing s now host hold).2 = s ∨
    ∃ c : Nat, (get_next_missing s now host hold).2 =
      { s with leases := s.leases.map fun l =>
          if l.message_id = c then
            { l with acquired_at := now, acquired_by := host,
                     expires_at := now + hold }
          else l } := by
  cases hm : minByLe publishedLe
      (s.messages_attempted.filter (missing_candidate s now)) with
  | none =>
    left
    unfold get_next_missing
    rw [hm]
  | some c =>
    right
    refine ⟨c.id, ?_⟩
    simp only [get_next_missing, hm]

theorem leases_fk_preserved {s s' : Db} (h : leases_fk s = true)
    (hatt : ∀ a ∈ s.messages_attempted, a ∈ s'.messages_attempted)
    (hle : ∀ l ∈ s'.leases,
      (∃ l0 ∈ s.leases, l0.message_id = l.message_id) ∨
      (∃ a ∈ s'.messages_attempted, a.id = l.message_id)) :
    leases_fk s' = true := by
  rw [leases_fk_iff] at h ⊢
  intro l hl
  rcases hle l hl with ⟨l0, hl0, hid⟩ | ⟨a, ha, hid⟩
  · rcases h l0 hl0 with ⟨a, ha, haid⟩
    exact ⟨a, hatt a ha, by rw [haid, hid]⟩
  · exact ⟨a, ha, hid⟩

theorem failed_fk_preserved {s s' : Db} (h : failed_fk s = true)
    (hatt : ∀ a ∈ s.messages_attempted, a ∈ s'.messages_attempted)
    (hfa : ∀ f ∈ s'.attempts_failed,
      f ∈ s.attempts_failed ∨
      (∃ a ∈ s'.messages_attempted, a.id = f.message_id)) :
    failed_fk s' = true := by
  rw [failed_fk_iff] at h ⊢
  intro f hf
  rcases hfa f hf with hmem | ⟨a, ha, hid⟩
  · rcases h f hmem with ⟨a, ha, haid⟩
    exact ⟨a, hatt a ha, haid⟩
  · exact ⟨a, ha, hid⟩

theorem step_lease_fk (s : Db) (op : Op)
    (h1 : leases_fk s = true) (h2 : failed_fk s = true)
    (hok : ok_lease_op s op = true) :
    leases_fk (applyOp s op) = true ∧ failed_fk (applyOp s op) = true := by
  cases op with
  | publish m now =>
    rcases publish_message_cases s m now with h | h <;>
      exact ⟨by simp only [applyOp]; rw [h]; exact h1,
             by simp only [applyOp]; rw [h]; exact h2⟩
  | next_unattempted now host hold =>
    rcases get_next_unattempted_cases s now host hold with h | ⟨r, hr, _, h⟩
    · exact ⟨by simp only [applyOp]; rw [h]; exact h1,
             by simp only [applyOp]; rw [h]; exact h2⟩
    · constructor
      · simp only [applyOp]
        rw [h]
        refine leases_fk_preserved h1 ?_ ?_
        · intro a ha
          exact List.mem_append_left _ ha
        · intro l hl
          rcases List.mem_append.mp hl with hmem | hnew
          · exact Or.inl ⟨l, hmem, rfl⟩
          · rcases List.mem_map.mp hnew with ⟨x, hx, rfl⟩
            exact Or.inr ⟨x, List.mem_append_right _ hx, rfl⟩
      · simp only [applyOp]
        rw [h]
        refine failed_fk_preserved h2 ?_ ?_
        · intro a ha
          exact List.mem_append_left _ ha
        · intro f hf
          exact Or.inl hf
  | next_retryable now host hold =>
    rcases get_next_retryable_cases s now host hold with h | ⟨f, hf, h⟩
    · exact ⟨by simp only [applyOp]; rw [h]; exact h1,
             by simp only [applyOp]; rw [h]; exact h2⟩
    · constructor
      · simp only [applyOp]
        rw [h]
        refine leases_fk_preserved h1 (fun a ha => ha) ?_
        intro l hl
        rcases List.mem_append.mp hl with hmem | hnew
        · exact Or.inl ⟨l, hmem, rfl⟩
        · rcases List.mem_singleton.mp hnew with rfl
          rcases (failed_fk_iff s).mp h2 f hf with ⟨a, ha, haid⟩
          exact Or.inr ⟨a, ha, haid⟩
      · simp only [applyOp]
        rw [h]
        exact failed_fk_preserved h2 (fun a ha => ha) (fun f hf => Or.inl hf)
  | next_missing now host hold =>
    rcases get_next_missing_cases s now host hold with h | ⟨c, h⟩
    · exact ⟨by simp only [applyOp]; rw [h]; exact h1,
             by simp only [applyOp]; rw [h]; exact h2⟩
    · constructor
      · simp only [applyOp]
        rw [h]
        refine leases_fk_preserved h1 (fun a ha => ha) ?_
        intro l hl
        rcases List.mem_map.mp hl with ⟨l0, hl0, rfl⟩
        refine Or.inl ⟨l0, hl0, ?_⟩
        by_cases hc : l0.message_id = c <;> simp [hc]
      · simp only [applyOp]
        rw [h]
        exact h2
  | success m now =>
    rcases report_success_cases s m now with h | ⟨_, h⟩
    · exact ⟨by simp only [applyOp]; rw [h]; exact h1,
             by simp only [applyOp]; rw [h]; exact h2⟩
    · constructor
      · simp only [applyOp]
        rw [h]
        refine leases_fk_preserved h1 (fun a ha => ha) ?_
        intro l hl
        exact Or.inl ⟨l, List.mem_of_mem_filter hl, rfl⟩
      · simp only [applyOp]
        rw [h]
        refine failed_fk_preserved h2 (fun a ha => ha) ?_
        intro f hf
        exact Or.inl (List.mem_of_mem_filter hf)
  | retryable m at_ att retry err fid eid =>
    rcases report_retryable_cases s m at_ att retry err fid eid with h | ⟨hg, h⟩
    · exact ⟨by simp only [applyOp]; rw [h]; exact h1,
             by simp only [applyOp]; rw [h]; exact h2⟩
    · constructor
      · simp only [applyOp]
        rw [h]
        refine leases_fk_preserved h1 (fun a ha => ha) ?_
        intro l hl
        exact Or.inl ⟨l, List.mem_of_mem_filter hl, rfl⟩
      · simp only [applyOp]
        rw [h]
        refine failed_fk_preserved h2 (fun a ha => ha) ?_
        intro f hf
        rcases List.mem_append.mp hf with hmem | hnew
        · exact Or.inl hmem
        · rcases List.mem_singleton.mp hnew with rfl
          rcases List.any_eq_true.mp hg with ⟨a, ha, haid⟩
          exact Or.inr ⟨a, ha, of_decide_eq_true haid⟩
  | dead m now err eid =>
    rcases report_dead_cases s m now err eid with h | ⟨_, h⟩
    · exact ⟨by simp only [applyOp]; rw [h]; exact h1,
             by simp only [applyOp]; rw [h]; exact h2⟩
    · constructor
      · simp only [applyOp]
        rw [h]
        refine leases_fk_preserved h1 (fun a ha => ha) ?_
        intro l hl
        exact Or.inl ⟨l, List.mem_of_mem_filter hl, rfl⟩
      · simp only [applyOp]
        rw [h]
        refine failed_fk_preserved h2 (fun a ha => ha) ?_
        intro f hf
        exact Or.inl (List.mem_of_mem_filter hf)
  | lease m now host hold =>
    rcases request_lease_cases s m now host hold with h | h
    · exact ⟨by simp only [applyOp]; rw [h]; exact h1,
             by simp only [applyOp]; rw [h]; exact h2⟩
    · constructor
      · simp only [applyOp]
        rw [h]
        refine leases_fk_preserved h1 (fun a ha => ha) ?_
        intro l hl
        rcases List.mem_append.mp hl with hmem | hnew
        · exact Or.inl ⟨l, hmem, rfl⟩
        · rcases List.mem_singleton.mp hnew with rfl
          have hex : ∃ a ∈ s.messages_attempted, a.id = m := by
            simpa [ok_lease_op] using hok
          rcases hex with ⟨a, ha, haid⟩
          exact Or.inr ⟨a, ha, haid⟩
      · simp only [applyOp]
        rw [h]
        exact h2

theorem run_lease_fk (tr : List Op) :
    ∀ s : Db, leases_fk s = true → failed_fk s = true →
      good_lease_trace s tr = true →
      leases_fk (runOps s tr) = true ∧ failed_fk (runOps s tr) = true := by
  induction tr with
  | nil => exact fun s h1 h2 _ => ⟨h1, h2⟩
  | cons op rest ih =>
    intro s h1 h2 hg
    obtain ⟨hok, hg'⟩ := Bool.and_eq_true_iff.mp
      (by simpa [good_lease_trace] using hg)
    have hstep := step_lease_fk s op h1 h2 hok
    exact ih (applyOp s op) hstep.1 hstep.2 hg'

theorem step_terminal (s : Db) (op : Op)
    (h1 : terminal_inv s = true) (h2 : terminal_fk s = true)
    (hok : ok_terminal_op s op = true) :
    terminal_inv (applyOp s op) = true ∧ terminal_fk (applyOp s op) = true := by
  obtain ⟨hIs, hId⟩ := (terminal_inv_iff s).mp h1
  obtain ⟨hFs, hFd⟩ := (terminal_fk_iff s).mp h2
  cases op with
  | publish m now =>
    rcases publish_message_cases s m now with h | h <;>
      exact ⟨by simp only [applyOp]; rw [h]; exact h1,
             by simp only [applyOp]; rw [h]; exact h2⟩
  | next_unattempted now host hold =>
    rcases get_next_unattempted_cases s now host hold with h | ⟨rr, hrr, hany, h⟩
    · exact ⟨by simp only [applyOp]; rw [h]; exact h1,
             by simp only [applyOp]; rw [h]; exact h2⟩
    · have hnotatt : ∀ a ∈ s.messages_attempted, ¬a.id = rr.id := by
        intro a ha
        have := List.any_eq_false.mp hany a ha
        simpa using this
      constructor
      · simp only [applyOp]
        rw [h, terminal_inv_iff]
        constructor
        · intro r hr
          refine ⟨hIs r hr |>.1, ?_, hIs r hr |>.2.2⟩
          intro l hl
          rcases List.mem_append.mp hl with hmem | hnew
          · exact (hIs r hr).2.1 l hmem
          · rcases List.mem_map.mp hnew with ⟨x, hx, rfl⟩
            have hx2 := List.of_mem_filter hx
            have hxid : x.id = rr.id := of_decide_eq_true hx2
            intro hcontra
            rcases hFs r hr with ⟨a, ha, haid⟩
            exact hnotatt a ha (by rw [haid, ← hcontra, hxid])
        · intro r hr
          refine ⟨?_, hId r hr |>.2⟩
          intro l hl
          rcases List.mem_append.mp hl with hmem | hnew
          · exact (hId r hr).1 l hmem
          · rcases List.mem_map.mp hnew with ⟨x, hx, rfl⟩
            have hx2 := List.of_mem_filter hx
            have hxid : x.id = rr.id := of_decide_eq_true hx2
            intro hcontra
            rcases hFd r hr with ⟨a, ha, haid⟩
            exact hnotatt a ha (by rw [haid, ← hcontra, hxid])
      · simp only [applyOp]
        rw [h, terminal_fk_iff]
        constructor
        · intro r hr
          rcases hFs r hr with ⟨a, ha, haid⟩
          exact ⟨a, List.mem_append_left _ ha, haid⟩
        · intro r hr
          rcases hFd r hr with ⟨a, ha, haid⟩
          exact ⟨a, List.mem_append_left _ ha, haid⟩
  | next_retryable now host hold =>
    rcases get_next_retryable_cases s now host hold with h | ⟨f, hf, h⟩
    · exact ⟨by simp only [applyOp]; rw [h]; exact h1,
             by simp only [applyOp]; rw [h]; exact h2⟩
    · constructor
      · simp only [applyOp]
        rw [h, terminal_inv_iff]
        constructor
        · intro r hr
          refine ⟨hIs r hr |>.1, ?_, hIs r hr |>.2.2⟩
          intro l hl
          rcases List.mem_append.mp hl with hmem | hnew
          · exact (hIs r hr).2.1 l hmem
          · rcases List.mem_singleton.mp hnew with rfl
            exact (hIs r hr).2.2 f hf
        · intro r hr
          refine ⟨?_, hId r hr |>.2⟩
          intro l hl
          rcases List.mem_append.mp hl with hmem | hnew
          · exact (hId r hr).1 l hmem
          · rcases List.mem_singleton.mp hnew with rfl
            exact (hId r hr).2 f hf
      · simp only [applyOp]
        rw [h]
        exact h2
  | next_missing now host hold =>
    rcases get_next_missing_cases s now host hold with h | ⟨c, h⟩
    · exact ⟨by simp only [applyOp]; rw [h]; exact h1,
             by simp only [applyOp]; rw [h]; exact h2⟩
    · constructor
      · simp only [applyOp]
        rw [h, terminal_inv_iff]
        constructor
        · intro r hr
          refine ⟨hIs r hr |>.1, ?_, hIs r hr |>.2.2⟩
          intro l hl
          rcases List.mem_map.mp hl with ⟨l0, hl0, rfl⟩
          have hmid : ∀ (l1 : Lease),
              ((if l1.message_id = c then
                  { l1 with acquired_at := now, acquired_by := host,
                            expires_at := now + hold }
                else l1) : Lease).message_id = l1.message_id := by
            intro l1
            by_cases hc : l1.message_id = c <;> simp [hc]
          rw [hmid l0]
          exact (hIs r hr).2.1 l0 hl0
        · intro r hr
          refine ⟨?_, hId r hr |>.2⟩
          intro l hl
          rcases List.mem_map.mp hl with ⟨l0, hl0, rfl⟩
          have hmid : ∀ (l1 : Lease),
              ((if l1.message_id = c then
                  { l1 with acquired_at := now, acquired_by := host,
                            expires_at := now + hold }
                else l1) : Lease).message_id = l1.message_id := by
            intro l1
            by_cases hc : l1.message_id = c <;> simp [hc]
          rw [hmid l0]
          exact (hId r hr).1 l0 hl0
      · simp only [applyOp]
        rw [h]
        exact h2
  | success m now =>
    obtain ⟨hnos, hnod⟩ := (no_terminal_iff s m).mp
      (by simpa [ok_terminal_op] using hok)
    rcases report_success_cases s m now with h | ⟨hg, h⟩
    · exact ⟨by simp only [applyOp]; rw [h]; exact h1,
             by simp only [applyOp]; rw [h]; exact h2⟩
    · constructor
      · simp only [applyOp]
        rw [h, terminal_inv_iff]
        constructor
        · intro r hr
          rcases List.mem_append.mp hr with hmem | hnew
          · refine ⟨hIs r hmem |>.1, ?_, ?_⟩
            · intro l hl
              exact (hIs r hmem).2.1 l (List.mem_of_mem_filter hl)
            · intro f hf
              exact (hIs r hmem).2.2 f (List.mem_of_mem_filter hf)
          · rcases List.mem_singleton.mp hnew with rfl
            refine ⟨?_, ?_, ?_⟩
            · intro d hd
              exact fun hc => hnod d hd hc
            · intro l hl
              have hl2 := List.of_mem_filter hl
              exact of_decide_eq_true hl2
            · intro f hf
              have hf2 := List.of_mem_filter hf
              exact of_decide_eq_true hf2
        · intro r hr
          refine ⟨?_, ?_⟩
          · intro l hl
            exact (hId r hr).1 l (List.mem_of_mem_filter hl)
          · intro f hf
            exact (hId r hr).2 f (List.mem_of_mem_filter hf)
      · simp only [applyOp]
        rw [h, terminal_fk_iff]
        constructor
        · intro r hr
          rcases List.mem_append.mp hr with hmem | hnew
          · exact hFs r hmem
          · rcases List.mem_singleton.mp hnew with rfl
            have hex : ∃ a ∈ s.messages_attempted, a.id = m := by
              simpa using hg
            exact hex
        · intro r hr
          exact hFd r hr
  | retryable m at_ att retry err fid eid =>
    obtain ⟨hnos, hnod⟩ := (no_terminal_iff s m).mp
      (by simpa [ok_terminal_op] using hok)
    rcases report_retryable_cases s m at_ att retry err fid eid with h | ⟨hg, h⟩
    · exact ⟨by simp only [applyOp]; rw [h]; exact h1,
             by simp only [applyOp]; rw [h]; exact h2⟩
    · constructor
      · simp only [applyOp]
        rw [h, terminal_inv_iff]
        constructor
        · intro r hr
          refine ⟨hIs r hr |>.1, ?_, ?_⟩
          · intro l hl
            exact (hIs r hr).2.1 l (List.mem_of_mem_filter hl)
          · intro f hf
            rcases List.mem_append.mp hf with hmem | hnew
            · exact (hIs r hr).2.2 f hmem
            · rcases List.mem_singleton.mp hnew with rfl
              exact fun hc => hnos r hr hc.symm
        · intro r hr
          refine ⟨?_, ?_⟩
          · intro l hl
            exact (hId r hr).1 l (List.mem_of_mem_filter hl)
          · intro f hf
            rcases List.mem_append.mp hf with hmem | hnew
            · exact (hId r hr).2 f hmem
            · rcases List.mem_singleton.mp hnew with rfl
              exact fun hc => hnod r hr hc.symm
      · simp only [applyOp]
        rw [h]
        exact h2
  | dead m now err eid =>
    obtain ⟨hnos, hnod⟩ := (no_terminal_iff s m).mp
      (by simpa [ok_terminal_op] using hok)
    rcases report_dead_cases s m now err eid with h | ⟨hg, h⟩
    · exact ⟨by simp only [applyOp]; rw [h]; exact h1,
             by simp only [applyOp]; rw [h]; exact h2⟩
    · constructor
      · simp only [applyOp]
        rw [h, terminal_inv_iff]
        constructor
        · intro r hr
          refine ⟨?_, ?_, ?_⟩
          · intro d hd
            rcases List.mem_append.mp hd with hmem | hnew
            · exact (hIs r hr).1 d hmem
            · rcases List.mem_singleton.mp hnew with rfl
              exact fun hc => hnos r hr hc.symm
          · intro l hl
            exact (hIs r hr).2.1 l (List.mem_of_mem_filter hl)
          · intro f hf
            exact (hIs r hr).2.2 f (List.mem_of_mem_filter hf)
        · intro r hr
          rcases List.mem_append.mp hr with hmem | hnew
          · refine ⟨?_, ?_⟩
            · intro l hl
              exact (hId r hmem).1 l (List.mem_of_mem_filter hl)
            · intro f hf
              exact (hId r hmem).2 f (List.mem_of_mem_filter hf)
          · rcases List.mem_singleton.mp hnew with rfl
            refine ⟨?_, ?_⟩
            · intro l hl
              have hl2 := List.of_mem_filter hl
              exact of_decide_eq_true hl2
            · intro f hf
              have hf2 := List.of_mem_filter hf
              exact of_decide_eq_true hf2
      · simp only [applyOp]
        rw [h, terminal_fk_iff]
        constructor
        · intro r hr
          exact hFs r hr
        · intro r hr
          rcases List.mem_append.mp hr with hmem | hnew
          · exact hFd r hmem
          · rcases List.mem_singleton.mp hnew with rfl
            have hex : ∃ a ∈ s.messages_attempted, a.id = m := by
              simpa using hg
            exact hex
  | lease m now host hold =>
    obtain ⟨hnos, hnod⟩ := (no_terminal_iff s m).mp
      (by simpa [ok_terminal_op] using hok)
    rcases request_lease_cases s m now host hold with h | h
    · exact ⟨by simp only [applyOp]; rw [h]; exact h1,
             by simp only [applyOp]; rw [h]; exact h2⟩
    · constructor
      · simp only [applyOp]
        rw [h, terminal_inv_iff]
        constructor
        · intro r hr
          refine ⟨hIs r hr |>.1, ?_, hIs r hr |>.2.2⟩
          intro l hl
          rcases List.mem_append.mp hl with hmem | hnew
          · exact (hIs r hr).2.1 l hmem
          · rcases List.mem_singleton.mp hnew with rfl
            exact fun hc => hnos r hr hc.symm
        · intro r hr
          refine ⟨?_, hId r hr |>.2⟩
          intro l hl
          rcases List.mem_append.mp hl with hmem | hnew
          · exact (hId r hr).1 l hmem
          · rcases List.mem_singleton.mp hnew with rfl
            exact fun hc => hnod r hr hc.symm
      · simp only [applyOp]
        rw [h]
        exact h2

theorem run_terminal (tr : List Op) :
    ∀ s : Db, terminal_inv s = true → terminal_fk s = true →
      good_terminal_trace s tr = true →
      terminal_inv (runOps s tr) = true ∧
      terminal_fk (runOps s tr) = true := by
  induction tr with
  | nil => exact fun s h1 h2 _ => ⟨h1, h2⟩
  | cons op rest ih =>
    intro s h1 h2 hg
    obtain ⟨hok, hg'⟩ := Bool.and_eq_true_iff.mp
      (by simpa [good_terminal_trace] using hg)
    have hstep := step_terminal s op h1 h2 hok
    exact ih (applyOp s op) hstep.1 hstep.2 hg'

/-- C2 (amended): after any sequence of the public operations in which
every `request_lease` call targets a message already in
`messages_attempted`, every lease row's `message_id` is present in
`messages_attempted`.  (Unrestricted, the invariant fails:
`request_lease` checks no foreign key — see the counterexample.) -/
theorem leases_reference_attempted (tr : List Op)
    (h : good_lease_trace Db.empty tr = true) :
    leases_fk (runOps Db.empty tr) = true :=
  (run_lease_fk tr Db.empty (by decide) (by decide) h).1

/-- Witness for C2 (amended): a publish/dispatch/renew trace satisfies the
side condition and ends with every lease row referencing an attempted
message. -/
theorem leases_reference_attempted_witness :
    good_lease_trace Db.empty
      [.publish ⟨1, "n", 0, "p", 0⟩ 0, .next_unattempted 1 7 5,
        .lease 1 2 7 5] = true ∧
    leases_fk (runOps Db.empty
      [.publish ⟨1, "n", 0, "p", 0⟩ 0, .next_unattempted 1 7 5,
        .lease 1 2 7 5]) = true :=
  ⟨by decide, leases_reference_attempted _ (by decide)⟩

/-- C5 (amended): after any sequence of the public operations in which the
report operations and `request_lease` are only invoked on messages without
an existing succeeded or dead row, every message has at most one of an
`attempts_succeeded` and an `attempts_dead` row, and a message with either
has no lease row and no `attempts_failed` row.  (Unrestricted, the
invariant fails — see the counterexample: `report_dead` after
`report_success` leaves both terminal rows.) -/
theorem terminal_exclusive_reachable (tr : List Op)
    (h : good_terminal_trace Db.empty tr = true) :
    terminal_inv (runOps Db.empty tr) = true :=
  (run_terminal tr Db.empty (by decide) (by decide) h).1

/-- Witness for C5 (amended): a publish/dispatch/report-success trace
satisfies the side condition and ends with the terminal-exclusivity
invariant intact. -/
theorem terminal_exclusive_reachable_witness :
    good_terminal_trace Db.empty
      [.publish ⟨1, "n", 0, "p", 0⟩ 0, .next_unattempted 1 7 5,
        .success 1 2] = true ∧
    terminal_inv (runOps Db.empty
      [.publish ⟨1, "n", 0, "p", 0⟩ 0, .next_unattempted 1 7 5,
        .success 1 2]) = true :=
  ⟨by decide, terminal_exclusive_reachable _ (by decide)⟩

end FxMq
